import Mathlib

/-!
Shallow embedding of the `keybind` crate (`src/lib.rs`).

The crate wraps a platform key-state provider (`device_query`).  The
provider's `Keycode` type is opaque to the core: only equality is used,
so we model it as a type parameter `K` with decidable equality.  The
call `self.device_state.get_keys()` inside `Keybind::triggered` is the
single external input of a tick; we model it by passing the sampled
list of keycodes as an argument to `triggered`.  The stored callback
`on_trigger : Box<Fn()>` is side-effectful; we model its effect as a
function `σ → σ` on an abstract world state `σ`, and the infinite
`wait` loop as a fold over a finite scripted list of samples (the test
harness of the spec's P8 breaks the loop after finitely many ticks).
-/

section Keybind

variable {K : Type} [DecidableEq K] {σ : Type}

/-- Embedding of `struct Keybind`: `pressed_keys` is the previously
observed sample, `key_binds` the target chord, `on_trigger` the stored
callback (modelled by its effect on a world `σ`).  The `device_state`
field carries no data in the embedding: the samples it would produce
are passed explicitly to `triggered`. -/
structure Keybind (K : Type) (σ : Type) where
  pressed_keys : List K
  key_binds : List K
  on_trigger : σ → σ

/-- Embedding of `Keybind::new`: stores `keys.to_vec()` verbatim, an
empty `pressed_keys`, and the no-op callback `Box::new(||{})`. -/
def Keybind.new (keys : List K) : Keybind K σ :=
  { pressed_keys := [], key_binds := keys, on_trigger := fun w => w }

/-- Embedding of `Keybind::triggered` with the sample returned by
`self.device_state.get_keys()` passed in as `sample`.  The code does
`mem::replace(&mut self.pressed_keys, get_keys())`, then returns
`self.pressed_keys.len() == self.key_binds.len()
  && previous_pressed_keys != self.pressed_keys
  && self.pressed_keys == self.key_binds`
where all comparisons are `Vec<Keycode>` (ordered sequence) equality. -/
def Keybind.triggered (kb : Keybind K σ) (sample : List K) : Bool × Keybind K σ :=
  let previous_pressed_keys := kb.pressed_keys
  let kb' : Keybind K σ := { kb with pressed_keys := sample }
  (decide (kb'.pressed_keys.length = kb'.key_binds.length)
     && decide (previous_pressed_keys ≠ kb'.pressed_keys)
     && decide (kb'.pressed_keys = kb'.key_binds),
   kb')

/-- Embedding of `Keybind::on_trigger` (the setter method; renamed
because the Lean field of the same name already takes that name):
`self.on_trigger = Box::new(callback)`. -/
def Keybind.on_trigger_set (kb : Keybind K σ) (callback : σ → σ) : Keybind K σ :=
  { kb with on_trigger := callback }

/-- The sequence of booleans returned by successive `triggered` calls
when the state source is scripted to return `samples`, one per tick. -/
def Keybind.run (kb : Keybind K σ) : List (List K) → List Bool
  | [] => []
  | s :: rest =>
    let r := kb.triggered s
    r.1 :: r.2.run rest

/-- Embedding of `Keybind::wait` driven by a finite scripted source:
each iteration runs `if self.triggered() { (self.on_trigger)(); }`,
i.e. invokes the stored callback on the world exactly when the tick
reported a rising edge. -/
def Keybind.wait (kb : Keybind K σ) (w : σ) : List (List K) → Keybind K σ × σ
  | [] => (kb, w)
  | s :: rest =>
    let r := kb.triggered s
    if r.1 then r.2.wait (r.2.on_trigger w) rest else r.2.wait w rest

/- Helper lemmas shared by the claim theorems. -/

theorem Keybind.tick_true_iff (kb : Keybind K σ) (s : List K) :
    (kb.triggered s).1 = true ↔
      s.length = kb.key_binds.length ∧ kb.pressed_keys ≠ s ∧ s = kb.key_binds := by
  simp [Keybind.triggered, and_assoc]

theorem Keybind.tick_false_of_ne (kb : Keybind K σ) (s : List K)
    (h : s ≠ kb.key_binds) : (kb.triggered s).1 = false := by
  simp [Keybind.triggered, h]

theorem Keybind.tick_snd_pressed (kb : Keybind K σ) (s : List K) :
    ((kb.triggered s).2).pressed_keys = s := rfl

theorem Keybind.tick_snd_binds (kb : Keybind K σ) (s : List K) :
    ((kb.triggered s).2).key_binds = kb.key_binds := rfl

theorem Keybind.tick_snd_action (kb : Keybind K σ) (s : List K) :
    ((kb.triggered s).2).on_trigger = kb.on_trigger := rfl

theorem Keybind.run_cons (kb : Keybind K σ) (s : List K) (rest : List (List K)) :
    kb.run (s :: rest) = (kb.triggered s).1 :: ((kb.triggered s).2).run rest := rfl

theorem Keybind.wait_cons (kb : Keybind K σ) (w : σ) (s : List K) (rest : List (List K)) :
    kb.wait w (s :: rest) =
      if (kb.triggered s).1
      then ((kb.triggered s).2).wait (((kb.triggered s).2).on_trigger w) rest
      else ((kb.triggered s).2).wait w rest := rfl

theorem Keybind.wait_world (kb : Keybind K σ) (w : σ) (samples : List (List K)) :
    (kb.wait w samples).2 = kb.on_trigger^[(kb.run samples).count true] w := by
  induction samples generalizing kb w with
  | nil => rfl
  | cons s rest ih =>
    rw [Keybind.wait_cons, Keybind.run_cons]
    by_cases hb : (kb.triggered s).1 = true
    · rw [if_pos hb, hb, ih, Keybind.tick_snd_action, List.count_cons]
      simp [Function.iterate_succ_apply]
    · rw [if_neg hb, ih, Keybind.tick_snd_action, Bool.eq_false_iff.mpr hb, List.count_cons]
      simp

theorem Keybind.wait_fst_binds (kb : Keybind K σ) (w : σ) (samples : List (List K)) :
    ((kb.wait w samples).1).key_binds = kb.key_binds := by
  induction samples generalizing kb w with
  | nil => rfl
  | cons s rest ih =>
    rw [Keybind.wait_cons]
    by_cases hb : (kb.triggered s).1 = true
    · rw [if_pos hb, ih]
      rfl
    · rw [if_neg hb, ih]
      rfl

theorem Keybind.run_all_false_of_ne (kb : Keybind K σ) (samples : List (List K))
    (h : ∀ s ∈ samples, s ≠ kb.key_binds) :
    kb.run samples = List.replicate samples.length false := by
  induction samples generalizing kb with
  | nil => rfl
  | cons s rest ih =>
    rw [Keybind.run_cons, Keybind.tick_false_of_ne kb s (h s (List.mem_cons_self s rest)),
      List.length_cons, List.replicate_succ]
    exact congrArg _ (ih _ (fun t ht => h t (List.mem_cons_of_mem _ ht)))

theorem Keybind.run_held (c : List K) :
    ∀ (m : Nat) (kb : Keybind K σ), kb.pressed_keys = c → kb.key_binds = c →
      kb.run (List.replicate m c) = List.replicate m false := by
  intro m
  induction m with
  | zero => intro kb _ _; rfl
  | succ m ih =>
    intro kb hp hb
    have h1 : (kb.triggered c).1 = false := by
      simp [Keybind.triggered, hp]
    simp only [List.replicate_succ]
    rw [Keybind.run_cons, h1, ih ((kb.triggered c).2) rfl hb]

theorem Keybind.run_alt (c : List K) (h : c ≠ []) :
    ∀ (n : Nat) (kb : Keybind K σ), kb.pressed_keys = [] → kb.key_binds = c →
      kb.run (List.replicate n [c, []]).flatten =
        (List.replicate n [true, false]).flatten := by
  intro n
  induction n with
  | zero => intro kb _ _; rfl
  | succ n ih =>
    intro kb hp hb
    have h1 : (kb.triggered c).1 = true := by
      rw [Keybind.tick_true_iff, hb, hp]
      exact ⟨rfl, Ne.symm h, rfl⟩
    have h2 : (((kb.triggered c).2).triggered []).1 = false := by
      apply Keybind.tick_false_of_ne
      rw [Keybind.tick_snd_binds, hb]
      exact Ne.symm h
    simp only [List.replicate_succ, List.flatten_cons, List.cons_append, List.nil_append]
    rw [Keybind.run_cons, Keybind.run_cons, h1, h2,
      ih ((((kb.triggered c).2).triggered []).2) rfl hb]

/- Claim C1. -/

/-- C1 counterexample: with target chord `[0, 1]`, initial (empty) prior
sample and tick sample `[1, 0]`, all three conditions of the claimed
rule hold — the sample has the chord's size, equals the chord as a set,
and differs from the prior sample — yet `triggered` returns `false`,
because the code compares the sample with the chord as ordered
sequences (`Vec` equality), not as sets. -/
theorem triggered_set_equality_cex :
    (((Keybind.new [0, 1] : Keybind Nat Nat)).triggered [1, 0]).1 = false ∧
    ([1, 0] : List Nat).length = (Keybind.new [0, 1] : Keybind Nat Nat).key_binds.length ∧
    ([1, 0] : List Nat).toFinset = (Keybind.new [0, 1] : Keybind Nat Nat).key_binds.toFinset ∧
    ([1, 0] : List Nat) ≠ (Keybind.new [0, 1] : Keybind Nat Nat).pressed_keys := by
  decide

/-- C1 (amended): a tick returns `true` iff the number of keys in `now`
equals the size of `target`, `now` equals `target` as an ordered
sequence (not merely as a set), and `now` differs from `prev` as an
ordered sequence. -/
theorem triggered_iff_sequence_eq (kb : Keybind K σ) (now : List K) :
    (kb.triggered now).1 = true ↔
      now.length = kb.key_binds.length ∧ kb.pressed_keys ≠ now ∧ now = kb.key_binds :=
  kb.tick_true_iff now

/- Claim C2. -/

/-- C2 counterexample: the one-sample scripted sequences `[[0, 1]]` and
`[[1, 0]]` differ only by permuting the keycode order inside their
single sample, yet the detector for chord `[0, 1]` produces tick
results `[true]` on the first and `[false]` on the second. -/
theorem order_sensitivity_cex :
    ((Keybind.new [0, 1] : Keybind Nat Nat).run [[0, 1]] = [true]) ∧
    ((Keybind.new [0, 1] : Keybind Nat Nat).run [[1, 0]] = [false]) ∧
    List.Perm [0, 1] [1, 0] := by
  decide

/-- C2 (amended): the detector compares samples as ordered sequences,
not as sets: two samples are indistinguishable — every detector state
gives them the same tick result — exactly when they are equal as
lists, so permuting the keycode order inside a sample can change the
tick results. -/
theorem sample_equality_is_list_eq (s₁ s₂ : List K) :
    (∀ kb : Keybind K Unit, (kb.triggered s₁).1 = (kb.triggered s₂).1) ↔ s₁ = s₂ := by
  constructor
  · intro h
    by_contra hne
    have h1 : (((⟨s₂, s₁, fun w => w⟩ : Keybind K Unit)).triggered s₁).1 = true := by
      rw [Keybind.tick_true_iff]
      exact ⟨rfl, fun hc => hne hc.symm, rfl⟩
    have h2 : (((⟨s₂, s₁, fun w => w⟩ : Keybind K Unit)).triggered s₂).1 = false :=
      Keybind.tick_false_of_ne _ _ (fun hc => hne hc.symm)
    rw [h _, h2] at h1
    exact Bool.false_ne_true h1
  · intro h
    subst h
    intro kb
    rfl

/- Claim C3. -/

/-- C3 counterexample: `Keybind::new` applied to the empty key sequence
succeeds and produces a detector (storing the empty chord and an empty
prior sample, which then ticks normally); no `EmptyChord` error exists
anywhere in the code. -/
theorem new_empty_chord_cex :
    ((Keybind.new [] : Keybind Nat Nat)).key_binds = [] ∧
    ((Keybind.new [] : Keybind Nat Nat)).pressed_keys = [] ∧
    (((Keybind.new [] : Keybind Nat Nat)).triggered []).1 = false := by
  decide

omit [DecidableEq K] in
/-- C3 (amended): construction is infallible: for every key sequence,
empty or not, `Keybind::new` produces a detector whose chord is the
given sequence verbatim and whose prior sample is empty. -/
theorem new_never_fails (keys : List K) :
    (Keybind.new keys : Keybind K σ).key_binds = keys ∧
    (Keybind.new keys : Keybind K σ).pressed_keys = [] :=
  ⟨rfl, rfl⟩

/- Claim C4. -/

/-- C4 counterexample: the chord argument `[0, 0]` does not behave like
the chord `[0]`: on sample `[0]` (from the initial state) the detector
for `[0]` fires but the detector for `[0, 0]` does not, and the stored
chord of the latter keeps its raw, non-deduplicated length 2. -/
theorem chord_dedup_cex :
    (((Keybind.new [0] : Keybind Nat Nat)).triggered [0]).1 = true ∧
    (((Keybind.new [0, 0] : Keybind Nat Nat)).triggered [0]).1 = false ∧
    ((Keybind.new [0, 0] : Keybind Nat Nat)).key_binds.length = 2 := by
  decide

/-- C4 (amended): duplicates in the chord argument are preserved
verbatim, and the strict size comparison uses the raw
(non-deduplicated) length: a chord given as `[a, a]` is stored as
`[a, a]` with length 2, so the sample `[a]` never triggers it, while
the chord `[a]` is triggered by `[a]` from the initial state. -/
theorem chord_duplicates_not_collapsed (a : K) :
    ((Keybind.new [a, a] : Keybind K σ)).key_binds = [a, a] ∧
    ((Keybind.new [a, a] : Keybind K σ)).key_binds.length = 2 ∧
    (((Keybind.new [a, a] : Keybind K σ)).triggered [a]).1 = false ∧
    (((Keybind.new [a] : Keybind K σ)).triggered [a]).1 = true := by
  refine ⟨rfl, rfl, ?_, ?_⟩
  · simp [Keybind.triggered, Keybind.new]
  · simp [Keybind.triggered, Keybind.new]

/- Claim C5. -/

/-- C5: after every tick, whatever boolean it returned, the stored
detector state `pressed_keys` equals exactly the sample consumed by
that tick: the prior sample is unconditionally replaced. -/
theorem triggered_replaces_prev (kb : Keybind K σ) (sample : List K) :
    ((kb.triggered sample).2).pressed_keys = sample :=
  kb.tick_snd_pressed sample

/- Claim C6. -/

/-- C6: if every scripted sample contains the target chord strictly as
a proper subset (extra keys always held), no tick returns `true`: the
run is all `false`, for any detector state. -/
theorem run_proper_superset_all_false (kb : Keybind K σ) (samples : List (List K))
    (h : ∀ s ∈ samples, kb.key_binds.toFinset ⊂ s.toFinset) :
    kb.run samples = List.replicate samples.length false := by
  apply Keybind.run_all_false_of_ne
  intro s hs heq
  exact (h s hs).ne (congrArg List.toFinset heq.symm)

/-- C6 witness: chord `[0]`, samples always hold the extra keys. -/
theorem run_proper_superset_all_false_w :
    (Keybind.new [0] : Keybind Nat Nat).run [[0, 1], [0, 1, 2]] = [false, false] :=
  run_proper_superset_all_false _ _ (by decide)

/- Claim C7. -/

/-- C7: from the initial empty prior sample, the sample sequence
`[chord, not-chord, chord]` yields exactly `[true, false, true]`, and
more generally alternating chord and empty samples yield alternating
`true` and `false`. -/
theorem run_rearm_after_release (c m : List K) (h : c ≠ []) (hm : m ≠ c) :
    ((Keybind.new c : Keybind K σ).run [c, m, c] = [true, false, true]) ∧
    (∀ n : Nat, (Keybind.new c : Keybind K σ).run (List.replicate n [c, []]).flatten =
      (List.replicate n [true, false]).flatten) := by
  constructor
  · have h1 : ((Keybind.new c : Keybind K σ).triggered c).1 = true := by
      rw [Keybind.tick_true_iff]
      exact ⟨rfl, Ne.symm h, rfl⟩
    have h2 : ((((Keybind.new c : Keybind K σ).triggered c).2).triggered m).1 = false :=
      Keybind.tick_false_of_ne _ _ hm
    have h3 : (((((Keybind.new c : Keybind K σ).triggered c).2).triggered m).2.triggered c).1
        = true := by
      rw [Keybind.tick_true_iff]
      exact ⟨rfl, hm, rfl⟩
    rw [Keybind.run_cons, Keybind.run_cons, Keybind.run_cons, h1, h2, h3]
    rfl
  · intro n
    exact Keybind.run_alt c h n _ rfl rfl

/-- C7 witness: chord `[0]`, not-chord `[1]`, and two full
press-release cycles of the alternating schedule. -/
theorem run_rearm_after_release_w :
    ((Keybind.new [0] : Keybind Nat Nat).run [[0], [1], [0]] = [true, false, true]) ∧
    ((Keybind.new [0] : Keybind Nat Nat).run (List.replicate 2 [[0], []]).flatten =
      (List.replicate 2 [true, false]).flatten) :=
  ⟨(run_rearm_after_release [0] [1] (by decide) (by decide)).1,
   (run_rearm_after_release [0] [1] (by decide) (by decide)).2 2⟩

/- Claim C8. -/

/-- C8: from construction, a scripted sequence repeating the matching
sample (the chord itself) `n ≥ 1` times yields `true` on the first
tick and `false` on each of the remaining `n - 1` ticks: subsequent
ticks fail because the sample equals the prior sample. -/
theorem run_hold_fires_once (c : List K) (n : Nat) (h : c ≠ []) (hn : 1 ≤ n) :
    (Keybind.new c : Keybind K σ).run (List.replicate n c) =
      true :: List.replicate (n - 1) false := by
  cases n with
  | zero => exact absurd hn (by simp)
  | succ m =>
    have h1 : ((Keybind.new c : Keybind K σ).triggered c).1 = true := by
      rw [Keybind.tick_true_iff]
      exact ⟨rfl, Ne.symm h, rfl⟩
    simp only [List.replicate_succ, Nat.add_sub_cancel]
    rw [Keybind.run_cons, h1, Keybind.run_held c m _ rfl rfl]

/-- C8 witness: chord `[0]` held for three consecutive ticks fires
exactly once, on the first tick. -/
theorem run_hold_fires_once_w :
    (Keybind.new [0] : Keybind Nat Nat).run (List.replicate 3 [0]) =
      true :: List.replicate 2 false :=
  run_hold_fires_once [0] 3 (by decide) (by decide)

/- Claim C9. -/

/-- C9: `triggered` never invokes the stored action: it leaves the
action slot untouched and its boolean result is independent of the
installed action (replacing the action changes no tick result).  Under
the `wait` loop driven by a finite scripted source, the final world is
the stored action iterated exactly once per tick that returned `true`
— the action runs once per `true` tick and never on a `false` tick. -/
theorem tick_action_parity :
    (∀ (kb : Keybind K σ) (s : List K), ((kb.triggered s).2).on_trigger = kb.on_trigger) ∧
    (∀ (kb : Keybind K σ) (f : σ → σ) (s : List K),
      (({ kb with on_trigger := f } : Keybind K σ).triggered s).1 = (kb.triggered s).1) ∧
    (∀ (kb : Keybind K σ) (w : σ) (samples : List (List K)),
      (kb.wait w samples).2 = kb.on_trigger^[(kb.run samples).count true] w) :=
  ⟨fun _ _ => rfl, fun _ _ _ => rfl, fun kb w samples => kb.wait_world w samples⟩

/- Claim C10. -/

/-- C10: the target chord is exactly the sequence supplied to the
constructor and is left unchanged by `triggered`, by the action setter
and by the `wait` loop; the action setter changes only the action slot,
leaving `pressed_keys` and `key_binds` unchanged. -/
theorem operations_frame :
    (∀ keys : List K, (Keybind.new keys : Keybind K σ).key_binds = keys) ∧
    (∀ (kb : Keybind K σ) (s : List K), ((kb.triggered s).2).key_binds = kb.key_binds) ∧
    (∀ (kb : Keybind K σ) (f : σ → σ),
      (kb.on_trigger_set f).key_binds = kb.key_binds ∧
      (kb.on_trigger_set f).pressed_keys = kb.pressed_keys ∧
      (kb.on_trigger_set f).on_trigger = f) ∧
    (∀ (kb : Keybind K σ) (w : σ) (samples : List (List K)),
      ((kb.wait w samples).1).key_binds = kb.key_binds) :=
  ⟨fun _ => rfl, fun _ _ => rfl, fun _ _ => ⟨rfl, rfl, rfl⟩,
   fun kb w samples => kb.wait_fst_binds w samples⟩

end Keybind
